import Mathlib

/-!
# cleanup.js — storage-account / resource-group teardown script

A shallow embedding of `src/cleanup.js` (Azure Stack Hub sample).

* JavaScript strings are sequences of UTF-16 code units: `JSString := List Nat`.
  String literals of the source are written `js "..."`.
* `undefined` is `none` of an `Option`.
* A thrown `Error` is the `.error` of an `Except`, carrying the message.
* Callbacks are continuations; what the program does is the list of `Event`s
  it performs, in order.  The outcomes of the external collaborators (HTTP
  fetch, `Environment.add`, login, the two SDK deletes) are the fields of a
  `World`.
-/

set_option maxRecDepth 8192

namespace Cleanup

/-! ## JavaScript strings -/

/-- A JavaScript string: its UTF-16 code units. -/
abbrev JSString := List Nat

/-- UTF-16 encoding of one character. -/
def utf16 (c : Char) : List Nat :=
  if c.toNat < 0x10000 then [c.toNat]
  else [0xD800 + (c.toNat - 0x10000) / 0x400, 0xDC00 + (c.toNat - 0x10000) % 0x400]

/-- A string literal of the source as a JavaScript string. -/
def js (s : String) : JSString := s.toList.flatMap utf16

/-- The method `String.prototype.indexOf(search)`: the least index at which `search`
occurs in `s`, or `-1`. -/
def indexOf (s search : JSString) : Int :=
  go s 0
where
  go : List Nat → Nat → Int
    | [], i => if search.isEmpty then (i : Int) else -1
    | c :: cs, i => if search.isPrefixOf (c :: cs) then (i : Int) else go cs (i + 1)

/-- The method `String.prototype.lastIndexOf(search)`: the greatest index at which
`search` occurs in `s`, or `-1`. -/
def lastIndexOf (s search : JSString) : Int :=
  go s 0 (-1)
where
  go : List Nat → Nat → Int → Int
    | [], i, acc => if search.isEmpty then (i : Int) else acc
    | c :: cs, i, acc => go cs (i + 1) (if search.isPrefixOf (c :: cs) then (i : Int) else acc)

/-- The method `String.prototype.slice(start, end)`: a negative index counts from the
end, both are clamped to `[0, length]`. -/
def slice (s : JSString) (start stop : Int) : JSString :=
  let len : Int := s.length
  let from_ : Int := if start < 0 then max (len + start) 0 else min start len
  let to_ : Int := if stop < 0 then max (len + stop) 0 else min stop len
  (s.drop from_.toNat).take (to_ - from_).toNat

/-- The method `String.prototype.substring(start)`: `start` is clamped to `[0, length]`. -/
def substring (s : JSString) (start : Int) : JSString :=
  let len : Int := s.length
  s.drop (min (max start 0) len).toNat

/-- The method `String.prototype.endsWith(search)`: whether the last code units of `s` are `search`. -/
def endsWith (s search : JSString) : Bool :=
  if search.length > s.length then false
  else s.drop (s.length - search.length) == search

/-- The method `Array.prototype.toString()`: the elements joined by `','`. -/
def arrayToString : List JSString → JSString
  | [] => []
  | [x] => x
  | x :: y :: rest => x ++ js "," ++ arrayToString (y :: rest)

/-- JavaScript truthiness of a value that is a string or `undefined`: only
`undefined` and the empty string are falsy. -/
def truthy : Option JSString → Bool
  | some (_ :: _) => true
  | _ => false

/-! ## Data model -/

/-- An error value handed to a callback or a rejection handler. -/
abbrev JSError := JSString

/-- The fields of the parsed metadata body that `main` reads.  The endpoint
fields may be `undefined`; `audiences[0]` of an empty array is `undefined`. -/
structure Metadata where
  portalEndpoint : Option JSString
  galleryEndpoint : Option JSString
  graphEndpoint : Option JSString
  loginEndpoint : JSString
  audiences : List JSString
  deriving DecidableEq, Repr

/-- The module-level variable `map`, as filled by `main`. -/
structure EnvMap where
  name : JSString
  portalUrl : Option JSString
  resourceManagerEndpointUrl : JSString
  galleryEndpointUrl : Option JSString
  activeDirectoryEndpointUrl : JSString
  activeDirectoryResourceId : Option JSString
  activeDirectoryGraphResourceId : Option JSString
  storageEndpointSuffix : JSString
  keyVaultDnsSuffix : JSString
  managementEndpointUrl : Option JSString
  validateAuthority : Option Bool
  deriving DecidableEq, Repr

/-- The module-level variables of lines 18-24. -/
structure Config where
  clientId : JSString
  tenantId : JSString
  secret : JSString
  subscriptionId : JSString
  base_url : JSString
  resourceGroupName : JSString
  storageAccountName : JSString
  deriving DecidableEq, Repr

/-- The `options` object handed to `loginWithServicePrincipalSecret`:
`tokenAudience`, and the value `main` assigned to
`options.environment.validateAuthority` (`none` when it assigned nothing). -/
structure LoginOptions where
  tokenAudience : Option JSString
  environmentValidateAuthority : Option Bool
  deriving DecidableEq, Repr

/-- What the program does to the outside, one step each. -/
inductive Event where
  /-- Call `console.log` with a string. -/
  | consoleLog (line : JSString)
  /-- Call `console.log(err)`. -/
  | consoleLogError (err : JSError)
  /-- Call `console.log(text + util.inspect(err, ...))`. -/
  | consoleLogInspect (text : JSString) (err : JSError)
  /-- Call `console.log(metadata)`. -/
  | consoleLogMetadata (metadata : Metadata)
  /-- Call `request.get` on the url: the one network call of `fetchEndpointMetadata`. -/
  | requestGet (url : JSString)
  /-- Call `Environment.Environment.add(map)`. -/
  | environmentAdd (map : EnvMap)
  /-- Call `msRestAzure.loginWithServicePrincipalSecret`. -/
  | loginWithServicePrincipalSecret (clientId secret tenantId : JSString) (options : LoginOptions)
  /-- Call `storageClient.storageAccounts.deleteMethod`. -/
  | storageAccountsDelete (resourceGroupName storageAccountName : JSString)
  /-- The storage delete reports to its callback: `none` is success. -/
  | storageAccountsDeleteDone (err : Option JSError)
  /-- Call `resourceClient.resourceGroups.deleteMethod`. -/
  | resourceGroupsDelete (resourceGroupName : JSString)
  /-- The resource-group delete reports to its callback: `none` is success. -/
  | resourceGroupsDeleteDone (err : Option JSError)
  /-- Call `process.exit()`. -/
  | processExit
  /-- An exception nobody catches (thrown in a callback or a promise handler). -/
  | uncaught (err : JSError)
  deriving DecidableEq, Repr

/-- How `request.get` ends: a transport error, a body `JSON.parse` rejects, or
a body parsed to metadata. -/
inductive FetchOutcome where
  | transportError (err : JSError)
  | invalidJson (err : JSError)
  | body (metadata : Metadata)

/-- The outcomes of the external collaborators in one run.  `none` is success. -/
structure World where
  fetch : FetchOutcome
  /-- The library call `Environment.add(map)` of `@azure/ms-rest-azure-env`: it returns or throws. -/
  environmentAdd : EnvMap → Option JSError
  login : Option JSError
  storageDelete : Option JSError
  resourceGroupDelete : Option JSError

/-- A callback `function (err, result)`: what runs when it is called. -/
abbrev Callback := Option JSError → List Event

/-! ## Start-up checks (lines 15-16, 40-56) -/

/-- The environment-variable names, in the order the source tests them. -/
def requiredEnvNames : List JSString :=
  [js "AZURE_CLIENT_ID", js "AZURE_TENANT_ID", js "ARM_ENDPOINT",
   js "AZURE_CLIENT_SECRET", js "AZURE_SUBSCRIPTION_ID"]

def envErrorText : JSString := js "please set/export the following environment variables: "

def usageErrorText : JSString :=
  js "Please provide the resource group and the storage account name by executing the script as follows: \"node cleanup.js <resourceGroupName> <storageAccountName>\"."

/-- Lines 40-50.  `env` is `process.env`. -/
def _validateEnvironmentVariables (env : JSString → Option JSString) : Except JSString Unit :=
  let envs : List JSString := []
  let envs := if !truthy (env (js "AZURE_CLIENT_ID")) then envs ++ [js "AZURE_CLIENT_ID"] else envs
  let envs := if !truthy (env (js "AZURE_TENANT_ID")) then envs ++ [js "AZURE_TENANT_ID"] else envs
  let envs := if !truthy (env (js "ARM_ENDPOINT")) then envs ++ [js "ARM_ENDPOINT"] else envs
  let envs := if !truthy (env (js "AZURE_CLIENT_SECRET")) then envs ++ [js "AZURE_CLIENT_SECRET"] else envs
  let envs := if !truthy (env (js "AZURE_SUBSCRIPTION_ID")) then envs ++ [js "AZURE_SUBSCRIPTION_ID"] else envs
  if envs.length > 0 then
    .error (envErrorText ++ arrayToString envs)
  else
    .ok ()

/-- Lines 52-56.  `argv` is `process.argv`. -/
def _validateParameters (argv : List JSString) : Except JSString Unit :=
  if !truthy argv[2]? || !truthy argv[3]? then
    .error usageErrorText
  else
    .ok ()

/-! ## Descriptor derivation (lines 87-97) -/

/-- Line 91. -/
def activeDirectoryEndpointUrl (loginEndpoint : JSString) : JSString :=
  slice loginEndpoint 0 (lastIndexOf loginEndpoint (js "/") + 1)

/-- Line 94. -/
def storageEndpointSuffix (base_url : JSString) : JSString :=
  js "." ++ substring base_url (indexOf base_url (js "."))

/-- Line 95. -/
def keyVaultDnsSuffix (base_url : JSString) : JSString :=
  js ".vault" ++ substring base_url (indexOf base_url (js "."))

/-- Line 97. -/
def isAdfs (metadata : Metadata) : Bool :=
  endsWith metadata.loginEndpoint (js "adfs")

/-- Lines 87-96: the entries written to `map`. -/
def deriveMap (metadata : Metadata) (base_url : JSString) : EnvMap :=
  { name := js "AzureStack"
    portalUrl := metadata.portalEndpoint
    resourceManagerEndpointUrl := base_url
    galleryEndpointUrl := metadata.galleryEndpoint
    activeDirectoryEndpointUrl := activeDirectoryEndpointUrl metadata.loginEndpoint
    activeDirectoryResourceId := metadata.audiences[0]?
    activeDirectoryGraphResourceId := metadata.graphEndpoint
    storageEndpointSuffix := storageEndpointSuffix base_url
    keyVaultDnsSuffix := keyVaultDnsSuffix base_url
    managementEndpointUrl := metadata.audiences[0]?
    validateAuthority := none }

/-- The variables the `if (isAdfs)` block of lines 106-110 may assign. -/
structure AdfsState where
  tenantId : JSString
  options : LoginOptions
  map : EnvMap
  deriving DecidableEq, Repr

/-- Lines 106-110. -/
def adfsBranch (isAdfs : Bool) (st : AdfsState) : AdfsState :=
  if isAdfs then
    { tenantId := js "adfs"
      options := { st.options with environmentValidateAuthority := some false }
      map := { st.map with validateAuthority := some false } }
  else st

/-- The required names whose variable is falsy (unset or empty), in source order. -/
def falsyEnvNames (env : JSString → Option JSString) : List JSString :=
  requiredEnvNames.filter (fun n => !truthy (env n))

/-! ## Teardown (lines 30-38, 119-141) -/

/-- The SDK call `storageClient.storageAccounts.deleteMethod(rg, name, callback)`:
the request is made and its outcome is reported to `callback`, once. -/
def storageAccountsDeleteMethod (w : World) (resourceGroupName storageAccountName : JSString)
    (callback : Callback) : List Event :=
  Event.storageAccountsDelete resourceGroupName storageAccountName ::
    Event.storageAccountsDeleteDone w.storageDelete :: callback w.storageDelete

/-- The SDK call `resourceClient.resourceGroups.deleteMethod(rg, callback)`:
the request is made and its outcome is reported to `callback`, once. -/
def resourceGroupsDeleteMethod (w : World) (resourceGroupName : JSString)
    (callback : Callback) : List Event :=
  Event.resourceGroupsDelete resourceGroupName ::
    Event.resourceGroupsDeleteDone w.resourceGroupDelete :: callback w.resourceGroupDelete

/-- Lines 30-33. -/
def deleteStorageAccount (cfg : Config) (w : World) (callback : Callback) : List Event :=
  Event.consoleLog (js "\nDeleting storage account : " ++ cfg.storageAccountName) ::
    storageAccountsDeleteMethod w cfg.resourceGroupName cfg.storageAccountName callback

/-- Lines 35-38. -/
def deleteResourceGroup (cfg : Config) (w : World) (callback : Callback) : List Event :=
  Event.consoleLog (js "\nDeleting resource group: " ++ cfg.resourceGroupName) ::
    resourceGroupsDeleteMethod w cfg.resourceGroupName callback

/-- The library call `async.series(tasks, final)`: each task is started with a
callback of its own; a task that calls it with an error ends the series with
`final(err)`, one that calls it without starts the next task, and after the
last task `final` is called without an error.  `final` runs only from a call
of a task callback. -/
def asyncSeries (tasks : List (Callback → List Event)) (final : Callback) : List Event :=
  match tasks with
  | [] => final none
  | task :: rest =>
    task (fun err =>
      match err with
      | some e => final (some e)
      | none => asyncSeries rest final)

/-- Lines 120-130: the one task handed to `async.series`.  Its parameter
`callback` is not used in its body. -/
def seriesTask (cfg : Config) (w : World) : Callback → List Event :=
  fun _callback =>
    deleteStorageAccount cfg w (fun err =>
      match err with
      | some e =>
        [Event.consoleLogInspect
          (js "Error occured in deleting the storage account: " ++ cfg.storageAccountName ++ js "\n") e]
      | none =>
        Event.consoleLog (js "Successfully deleted the storage account: " ++ cfg.storageAccountName) ::
        Event.consoleLog (js "\nDeleting the resource group can take few minutes, so please be patient :).") ::
        deleteResourceGroup cfg w (fun err =>
          match err with
          | some e =>
            [Event.consoleLogInspect
              (js "Error occured in deleting the resource group: " ++ cfg.resourceGroupName ++ js "\n") e]
          | none =>
            [Event.consoleLog (js "Successfully deleted the resourcegroup: " ++ cfg.resourceGroupName)]))

/-- The closing banner of line 138. -/
def exitBanner : JSString := js "\n###### Exit ######\n"

/-- The recovery command of line 139. -/
def recoveryCommand (cfg : Config) : JSString :=
  js "Please execute the following script for cleanup:\nnode cleanup.js " ++
    cfg.resourceGroupName ++ js " " ++ cfg.storageAccountName

/-- Lines 133-141: the final callback handed to `async.series`. -/
def seriesFinal (cfg : Config) : Callback :=
  fun err =>
    (match err with
     | some e => [Event.consoleLogInspect (js "\n??????Error occurred in one of the operations.\n") e]
     | none => []) ++
    [Event.consoleLog exitBanner, Event.consoleLog (recoveryCommand cfg), Event.processExit]

/-- Lines 119-141: the teardown sequence, run once credentials are acquired. -/
def teardown (cfg : Config) (w : World) : List Event :=
  asyncSeries [seriesTask cfg w] (seriesFinal cfg)

/-! ## main (lines 58-146) and module start-up -/

/-- Line 28. -/
def fetchUrl (cfg : Config) : JSString :=
  cfg.base_url ++ js "metadata/endpoints?api-version=1.0"

/-- Lines 83-142: the handler `main` installs for the fetched metadata. -/
def onMetadata (cfg : Config) (w : World) (metadata : Metadata) : List Event :=
  let map := deriveMap metadata cfg.base_url
  let isAdfs := isAdfs metadata
  Event.consoleLog (js "Initialized user details") ::
  Event.consoleLogMetadata metadata ::
  Event.environmentAdd map ::
  match w.environmentAdd map with
  | some e => [Event.uncaught e]
  | none =>
    let tokenAudience := map.activeDirectoryResourceId
    let options : LoginOptions := { tokenAudience := tokenAudience, environmentValidateAuthority := none }
    let st := adfsBranch isAdfs { tenantId := cfg.tenantId, options := options, map := map }
    Event.loginWithServicePrincipalSecret cfg.clientId cfg.secret st.tenantId st.options ::
    match w.login with
    | some e => [Event.consoleLogError e]
    | none => teardown cfg w

/-- Lines 58-78 and 80-146: `main`, with `fetchEndpointMetadata` inlined. -/
def main (cfg : Config) (w : World) : List Event :=
  Event.requestGet (fetchUrl cfg) ::
  match w.fetch with
  | .transportError e => [Event.consoleLogError e]
  | .invalidJson e => [Event.uncaught e]
  | .body metadata => onMetadata cfg w metadata

/-- One run of the module: the events performed and the error thrown at
top level, if any. -/
structure Run where
  events : List Event
  thrown : Option JSString
  deriving DecidableEq, Repr

/-- Lines 18-24: a string read from `process.env` or `process.argv` (both
start-up checks have passed, so it is there). -/
def readVar (v : Option JSString) : JSString := v.getD []

/-- Lines 18-24. -/
def loadConfig (env : JSString → Option JSString) (argv : List JSString) : Config :=
  { clientId := readVar (env (js "AZURE_CLIENT_ID"))
    tenantId := readVar (env (js "AZURE_TENANT_ID"))
    secret := readVar (env (js "AZURE_CLIENT_SECRET"))
    subscriptionId := readVar (env (js "AZURE_SUBSCRIPTION_ID"))
    base_url := readVar (env (js "ARM_ENDPOINT"))
    resourceGroupName := readVar argv[2]?
    storageAccountName := readVar argv[3]? }

/-- The module body, lines 15-28 and 148: the two checks in source order, a
throw ends the run; then the variables are read and `main` is called. -/
def startup (env : JSString → Option JSString) (argv : List JSString) (w : World) : Run :=
  match _validateEnvironmentVariables env with
  | .error e => { events := [], thrown := some e }
  | .ok _ =>
    match _validateParameters argv with
    | .error e => { events := [], thrown := some e }
    | .ok _ => { events := main (loadConfig env argv) w, thrown := none }

/-- Whether a run made the network call of `fetchEndpointMetadata`. -/
def fetchInvoked (r : Run) : Bool :=
  r.events.any (fun e => match e with | .requestGet _ => true | _ => false)

/-- How often a run called `process.exit`. -/
def exitCount (events : List Event) : Nat :=
  events.count Event.processExit

/-! ## Sample inputs -/

/-- The code unit of a character of the Basic Multilingual Plane. -/
def codeUnit (c : Char) : Nat := c.toNat

/-- The metadata of the worked example: a loginEndpoint that ends with `adfs`. -/
def adfsMetadata : Metadata :=
  { portalEndpoint := some (js "https://portal.example.com/")
    galleryEndpoint := some (js "https://gallery.example.com/")
    graphEndpoint := some (js "https://graph.example.com/")
    loginEndpoint := js "https://login.example.com/adfs"
    audiences := [js "aud1"] }

/-- A run in which the fetch returns `adfsMetadata` and `Environment.add`, the
login and both deletes succeed. -/
def adfsWorld : World :=
  { fetch := .body adfsMetadata
    environmentAdd := fun _ => none
    login := none
    storageDelete := none
    resourceGroupDelete := none }

/-- A configuration whose tenant id is not `adfs`. -/
def sampleConfig : Config :=
  { clientId := js "client"
    tenantId := js "contoso.onmicrosoft.com"
    secret := js "secret"
    subscriptionId := js "sub"
    base_url := js "https://mgmt.example.com/"
    resourceGroupName := js "rg"
    storageAccountName := js "acct" }

/-- A configuration whose base_url is that of the worked example of the suffixes. -/
def contosoConfig : Config :=
  { clientId := js "client"
    tenantId := js "contoso.onmicrosoft.com"
    secret := js "secret"
    subscriptionId := js "sub"
    base_url := js "https://mgmt.contoso.net/"
    resourceGroupName := js "rg"
    storageAccountName := js "acct" }

/-- An environment in which all five variables are set, AZURE_CLIENT_ID to
the empty string. -/
def envEmptyClientId : JSString → Option JSString :=
  fun n => if n = js "AZURE_CLIENT_ID" then some [] else some (js "x")

/-- An environment in which every variable is set to a non-empty string. -/
def envAllSet : JSString → Option JSString :=
  fun _ => some (js "x")

/-- The empty environment. -/
def envNone : JSString → Option JSString :=
  fun _ => none

/-! ## Lemmas on the string operations -/

theorem js_slash : js "/" = [codeUnit '/'] := by decide

theorem js_dot : js "." = [codeUnit '.'] := by decide

/-- The string operations on inputs of the worked examples. -/
theorem string_operations_examples :
    js "a/b" = [97, 47, 98] ∧
    lastIndexOf (js "https://login.example.com/adfs") (js "/") = 25 ∧
    lastIndexOf (js "login") (js "/") = -1 ∧
    indexOf (js "https://mgmt.contoso.net/") (js ".") = 12 ∧
    indexOf (js "localhost") (js ".") = -1 ∧
    substring (js "localhost") (-1) = js "localhost" ∧
    slice (js "abcdef") 0 3 = js "abc" ∧
    slice (js "abcdef") (-2) 6 = js "ef" ∧
    endsWith (js "https://login.example.com/adfs") (js "adfs") = true ∧
    endsWith (js "fs") (js "adfs") = false ∧
    arrayToString [js "A", js "B", js "C"] = js "A,B,C" := by
  decide

theorem isPrefixOf_single (c d : Nat) (ds : List Nat) :
    List.isPrefixOf [c] (d :: ds) = (c == d) := by
  simp [List.isPrefixOf]

/-- Searching one code unit with `indexOf` finds its first occurrence. -/
theorem indexOf_go_single (c : Nat) :
    ∀ (s : List Nat) (i : Nat), c ∈ s →
      ∃ pre rest, s = pre ++ c :: rest ∧ c ∉ pre ∧ indexOf.go [c] s i = ((i + pre.length : Nat) : Int) := by
  intro s
  induction s with
  | nil => intro i h; simp at h
  | cons d ds ih =>
    intro i h
    by_cases hcd : c = d
    · subst hcd
      exact ⟨[], ds, by simp, by simp, by simp [indexOf.go, List.isPrefixOf]⟩
    · have hmem : c ∈ ds := by
        rcases List.mem_cons.mp h with h1 | h1
        · exact absurd h1 hcd
        · exact h1
      obtain ⟨pre, rest, hs, hpre, hgo⟩ := ih (i + 1) hmem
      refine ⟨d :: pre, rest, by simp [hs], ?_, ?_⟩
      · simp only [List.mem_cons, not_or]
        exact ⟨hcd, hpre⟩
      · simp only [indexOf.go, isPrefixOf_single, beq_iff_eq, hcd, if_false, hgo, List.length_cons]
        congr 1
        omega

/-- Searching one code unit with `lastIndexOf` finds its last occurrence, and
gives the accumulator back when there is none. -/
theorem lastIndexOf_go_single (c : Nat) :
    ∀ (s : List Nat) (i : Nat) (acc : Int),
      (c ∈ s → ∃ pre rest, s = pre ++ c :: rest ∧ c ∉ rest ∧
        lastIndexOf.go [c] s i acc = ((i + pre.length : Nat) : Int)) ∧
      (c ∉ s → lastIndexOf.go [c] s i acc = acc) := by
  intro s
  induction s with
  | nil => intro i acc; simp [lastIndexOf.go]
  | cons d ds ih =>
    intro i acc
    constructor
    · intro h
      by_cases hmem : c ∈ ds
      · obtain ⟨pre, rest, hs, hrest, hgo⟩ := (ih (i + 1) (if c == d then (i : Int) else acc)).1 hmem
        refine ⟨d :: pre, rest, by simp [hs], hrest, ?_⟩
        simp only [lastIndexOf.go, isPrefixOf_single, hgo, List.length_cons]
        congr 1
        omega
      · have hcd : c = d := by
          rcases List.mem_cons.mp h with h1 | h1
          · exact h1
          · exact absurd h1 hmem
        subst hcd
        refine ⟨[], ds, by simp, hmem, ?_⟩
        simp only [lastIndexOf.go, isPrefixOf_single, beq_self_eq_true, if_true]
        rw [(ih (i + 1) (i : Int)).2 hmem]
        simp
    · intro h
      have hcd : ¬ c = d := fun e => h (by simp [e])
      have hmem : c ∉ ds := fun e => h (List.mem_cons_of_mem _ e)
      simp only [lastIndexOf.go, isPrefixOf_single, beq_iff_eq, hcd, if_false]
      exact (ih (i + 1) acc).2 hmem

theorem substring_at_length (pre rest : List Nat) :
    substring (pre ++ rest) ((pre.length : Nat) : Int) = rest := by
  simp only [substring, List.length_append]
  have h : (min (max ((pre.length : Nat) : Int) 0) ((pre.length + rest.length : Nat) : Int)).toNat
      = pre.length := by
    omega
  rw [h]
  simp

theorem slice_zero_at_length (pre rest : List Nat) :
    slice (pre ++ rest) 0 ((pre.length : Nat) : Int) = pre := by
  simp only [slice, List.length_append]
  have h0 : (if (0 : Int) < 0 then max (((pre.length + rest.length : Nat) : Int) + 0) 0
      else min 0 ((pre.length + rest.length : Nat) : Int)) = 0 := by
    rw [if_neg (by omega)]
    omega
  have h1 : (if ((pre.length : Nat) : Int) < 0
      then max (((pre.length + rest.length : Nat) : Int) + ((pre.length : Nat) : Int)) 0
      else min ((pre.length : Nat) : Int) ((pre.length + rest.length : Nat) : Int))
      = ((pre.length : Nat) : Int) := by
    have : ¬ ((pre.length : Nat) : Int) < 0 := by omega
    rw [if_neg this]
    omega
  rw [h0, h1]
  simp

theorem endsWith_iff (s search : JSString) :
    endsWith s search = true ↔ ∃ pre, s = pre ++ search := by
  unfold endsWith
  constructor
  · intro h
    by_cases hlen : search.length > s.length
    · simp [hlen] at h
    · rw [if_neg hlen] at h
      have hd : s.drop (s.length - search.length) = search := by simpa using h
      refine ⟨s.take (s.length - search.length), ?_⟩
      conv_lhs => rw [← List.take_append_drop (s.length - search.length) s]
      rw [hd]
  · rintro ⟨pre, rfl⟩
    have hlen : ¬ search.length > (pre ++ search).length := by
      simp
    rw [if_neg hlen]
    simp

/-! ## Descriptor derivation: the string rules of lines 91, 94 and 95 -/

/-- Line 91 on a loginEndpoint with a slash: the value ends with the slash,
loginEndpoint is the value followed by a rest, and the rest has no slash. -/
theorem line91_through_last_slash (loginEndpoint : JSString)
    (h : codeUnit '/' ∈ loginEndpoint) :
    ∃ pre rest, activeDirectoryEndpointUrl loginEndpoint = pre ++ js "/" ∧
      loginEndpoint = activeDirectoryEndpointUrl loginEndpoint ++ rest ∧
      codeUnit '/' ∉ rest := by
  obtain ⟨pre, rest, hs, hrest, hgo⟩ :=
    (lastIndexOf_go_single (codeUnit '/') loginEndpoint 0 (-1)).1 h
  have hval : activeDirectoryEndpointUrl loginEndpoint = pre ++ js "/" := by
    unfold activeDirectoryEndpointUrl lastIndexOf
    rw [js_slash, hgo]
    have hsplit : loginEndpoint = (pre ++ [codeUnit '/']) ++ rest := by simp [hs]
    have hlen : ((0 + pre.length : Nat) : Int) + 1 = (((pre ++ [codeUnit '/']).length : Nat) : Int) := by
      simp
    rw [hlen, hsplit]
    exact slice_zero_at_length _ _
  refine ⟨pre, rest, hval, ?_, hrest⟩
  rw [hval, js_slash, hs]
  simp

/-- The substring of lines 94 and 95 on a base_url with a dot: it starts at
the first dot of base_url. -/
theorem substring_from_first_dot (base_url : JSString) (h : codeUnit '.' ∈ base_url) :
    ∃ pre rest, base_url = pre ++ (js "." ++ rest) ∧ codeUnit '.' ∉ pre ∧
      substring base_url (indexOf base_url (js ".")) = js "." ++ rest := by
  obtain ⟨pre, rest, hs, hpre, hgo⟩ := indexOf_go_single (codeUnit '.') base_url 0 h
  refine ⟨pre, rest, by simpa [js_dot] using hs, hpre, ?_⟩
  unfold indexOf
  rw [js_dot, hgo]
  have hlen : ((0 + pre.length : Nat) : Int) = ((pre.length : Nat) : Int) := by simp
  rw [hlen]
  conv_lhs => rw [hs]
  rw [substring_at_length]
  simp

/-! ## Descriptor derivation: the map handed to `Environment.add` -/

/-- The events of the teardown are no call of `Environment.add`. -/
theorem environmentAdd_not_mem_teardown (cfg : Config) (w : World) (m : EnvMap) :
    Event.environmentAdd m ∉ teardown cfg w := by
  unfold teardown asyncSeries seriesTask deleteStorageAccount storageAccountsDeleteMethod
  cases hs : w.storageDelete with
  | some e => simp
  | none =>
    unfold deleteResourceGroup resourceGroupsDeleteMethod
    cases hr : w.resourceGroupDelete <;> simp

/-- In a run whose fetch returns metadata, `Environment.add` is called once
with one map: the entries `main` wrote on lines 87-96. -/
theorem environmentAdd_mem_main (cfg : Config) (w : World) (metadata : Metadata)
    (hfetch : w.fetch = .body metadata) (m : EnvMap) :
    Event.environmentAdd m ∈ main cfg w ↔ m = deriveMap metadata cfg.base_url := by
  have hnot := environmentAdd_not_mem_teardown cfg w m
  unfold main onMetadata
  simp only [hfetch]
  cases ha : w.environmentAdd (deriveMap metadata cfg.base_url) with
  | some e => simp
  | none =>
    cases hl : w.login with
    | some e => simp
    | none => simp [hnot]

/-- C6: in every run whose fetched loginEndpoint contains a slash, the
activeDirectoryEndpointUrl of the map that main derives and hands to
Environment.add is loginEndpoint cut after its last slash: it ends with the
slash, loginEndpoint is that value followed by a rest, and the rest has no
slash.  For loginEndpoint `https://login.example.com/adfs` it is
`https://login.example.com/`. -/
theorem map_activeDirectoryEndpointUrl_through_last_slash :
    (∀ (cfg : Config) (w : World) (metadata : Metadata),
      w.fetch = .body metadata → codeUnit '/' ∈ metadata.loginEndpoint →
      ∃ pre rest,
        (∀ m, Event.environmentAdd m ∈ main cfg w ↔ m = deriveMap metadata cfg.base_url) ∧
        (deriveMap metadata cfg.base_url).activeDirectoryEndpointUrl = pre ++ js "/" ∧
        metadata.loginEndpoint
          = (deriveMap metadata cfg.base_url).activeDirectoryEndpointUrl ++ rest ∧
        codeUnit '/' ∉ rest) ∧
    (adfsMetadata.loginEndpoint = js "https://login.example.com/adfs" ∧
      (∀ m, Event.environmentAdd m ∈ main sampleConfig adfsWorld →
        m.activeDirectoryEndpointUrl = js "https://login.example.com/") ∧
      Event.environmentAdd (deriveMap adfsMetadata sampleConfig.base_url)
        ∈ main sampleConfig adfsWorld) := by
  refine ⟨?_, rfl, ?_, ?_⟩
  · intro cfg w metadata hfetch hslash
    obtain ⟨pre, rest, hval, hsplit, hrest⟩ := line91_through_last_slash _ hslash
    exact ⟨pre, rest, environmentAdd_mem_main cfg w metadata hfetch, hval, hsplit, hrest⟩
  · intro m hm
    rw [(environmentAdd_mem_main sampleConfig adfsWorld adfsMetadata rfl m).1 hm]
    decide
  · exact (environmentAdd_mem_main sampleConfig adfsWorld adfsMetadata rfl _).2 rfl

/-- C7, what the code does: in every run whose base_url contains a dot, the
storageEndpointSuffix of the map that main derives and hands to
Environment.add is not the substring of base_url from its first dot but that
substring with one more dot in front; for base_url `https://mgmt.contoso.net/`
the substring is `.contoso.net/` and the entry is `..contoso.net/`. -/
theorem map_storageEndpointSuffix_has_extra_dot :
    (∀ (cfg : Config) (w : World) (metadata : Metadata),
      w.fetch = .body metadata → codeUnit '.' ∈ cfg.base_url →
      ∃ pre rest, cfg.base_url = pre ++ (js "." ++ rest) ∧ codeUnit '.' ∉ pre ∧
        (∀ m, Event.environmentAdd m ∈ main cfg w ↔ m = deriveMap metadata cfg.base_url) ∧
        (deriveMap metadata cfg.base_url).storageEndpointSuffix = js "." ++ (js "." ++ rest) ∧
        (deriveMap metadata cfg.base_url).storageEndpointSuffix ≠ js "." ++ rest) ∧
    (contosoConfig.base_url = js "https://mgmt.contoso.net/" ∧
      substring contosoConfig.base_url (indexOf contosoConfig.base_url (js "."))
        = js ".contoso.net/" ∧
      (∀ m, Event.environmentAdd m ∈ main contosoConfig adfsWorld →
        m.storageEndpointSuffix = js "..contoso.net/" ∧
        m.storageEndpointSuffix ≠ js ".contoso.net/") ∧
      Event.environmentAdd (deriveMap adfsMetadata contosoConfig.base_url)
        ∈ main contosoConfig adfsWorld) := by
  refine ⟨?_, rfl, by decide, ?_, ?_⟩
  · intro cfg w metadata hfetch hdot
    obtain ⟨pre, rest, hs, hpre, hsub⟩ := substring_from_first_dot _ hdot
    have hval : (deriveMap metadata cfg.base_url).storageEndpointSuffix
        = js "." ++ (js "." ++ rest) := by
      simp only [deriveMap, storageEndpointSuffix, hsub]
    refine ⟨pre, rest, hs, hpre, environmentAdd_mem_main cfg w metadata hfetch, hval, ?_⟩
    rw [hval]
    intro h
    have hlen := congrArg List.length h
    rw [js_dot] at hlen
    simp at hlen
  · intro m hm
    rw [(environmentAdd_mem_main contosoConfig adfsWorld adfsMetadata rfl m).1 hm]
    decide
  · exact (environmentAdd_mem_main contosoConfig adfsWorld adfsMetadata rfl _).2 rfl

/-- C10: in every run whose base_url contains a dot, the keyVaultDnsSuffix of
the map that main derives and hands to Environment.add is `.vault` followed
by the substring of base_url that starts at its first dot; for base_url
`https://mgmt.contoso.net/` it is `.vault.contoso.net/`. -/
theorem map_keyVaultDnsSuffix_vault_then_from_first_dot :
    (∀ (cfg : Config) (w : World) (metadata : Metadata),
      w.fetch = .body metadata → codeUnit '.' ∈ cfg.base_url →
      ∃ pre rest, cfg.base_url = pre ++ (js "." ++ rest) ∧ codeUnit '.' ∉ pre ∧
        (∀ m, Event.environmentAdd m ∈ main cfg w ↔ m = deriveMap metadata cfg.base_url) ∧
        (deriveMap metadata cfg.base_url).keyVaultDnsSuffix
          = js ".vault" ++ (js "." ++ rest)) ∧
    (contosoConfig.base_url = js "https://mgmt.contoso.net/" ∧
      (∀ m, Event.environmentAdd m ∈ main contosoConfig adfsWorld →
        m.keyVaultDnsSuffix = js ".vault.contoso.net/") ∧
      Event.environmentAdd (deriveMap adfsMetadata contosoConfig.base_url)
        ∈ main contosoConfig adfsWorld) := by
  refine ⟨?_, rfl, ?_, ?_⟩
  · intro cfg w metadata hfetch hdot
    obtain ⟨pre, rest, hs, hpre, hsub⟩ := substring_from_first_dot _ hdot
    refine ⟨pre, rest, hs, hpre, environmentAdd_mem_main cfg w metadata hfetch, ?_⟩
    simp only [deriveMap, keyVaultDnsSuffix, hsub]
  · intro m hm
    rw [(environmentAdd_mem_main contosoConfig adfsWorld adfsMetadata rfl m).1 hm]
    decide
  · exact (environmentAdd_mem_main contosoConfig adfsWorld adfsMetadata rfl _).2 rfl

/-! ## The ADFS rule -/

/-- The events of the teardown are no login call. -/
theorem login_not_mem_teardown (cfg : Config) (w : World) (c s t : JSString) (o : LoginOptions) :
    Event.loginWithServicePrincipalSecret c s t o ∉ teardown cfg w := by
  unfold teardown asyncSeries seriesTask deleteStorageAccount storageAccountsDeleteMethod
  cases hs : w.storageDelete with
  | some e => simp
  | none =>
    unfold deleteResourceGroup resourceGroupsDeleteMethod
    cases hr : w.resourceGroupDelete <;> simp

/-- The one login call of a run that gets as far as the login. -/
theorem adfs_login_call (cfg : Config) (w : World) (metadata : Metadata)
    (hfetch : w.fetch = .body metadata)
    (hadd : w.environmentAdd (deriveMap metadata cfg.base_url) = none) :
    ∀ c s t o, Event.loginWithServicePrincipalSecret c s t o ∈ main cfg w ↔
      (c = cfg.clientId ∧ s = cfg.secret ∧
       t = (if isAdfs metadata = true then js "adfs" else cfg.tenantId) ∧
       o = { tokenAudience := metadata.audiences[0]?,
             environmentValidateAuthority := if isAdfs metadata = true then some false else none }) := by
  intro c s t o
  have hnot := login_not_mem_teardown cfg w c s t o
  unfold main onMetadata
  simp only [hfetch, hadd]
  cases hl : w.login with
  | some e =>
    cases hA : isAdfs metadata <;>
      simp [adfsBranch, deriveMap, eq_comm]
  | none =>
    cases hA : isAdfs metadata <;>
      simp [adfsBranch, deriveMap, hnot, eq_comm]

/-- C8: in every run that gets as far as the login call, isAdfs is true
exactly when loginEndpoint ends with `adfs`; the one login call of the run
gets the tenant id `adfs` and an environment whose validateAuthority was set
to false when isAdfs is true (whatever the configured tenant id), and the
configured tenant id unchanged when it is false; in the first case
validateAuthority is also set to false on map. -/
theorem adfs_rule (cfg : Config) (w : World) (metadata : Metadata)
    (hfetch : w.fetch = .body metadata)
    (hadd : w.environmentAdd (deriveMap metadata cfg.base_url) = none) :
    (isAdfs metadata = true ↔ ∃ pre, metadata.loginEndpoint = pre ++ js "adfs") ∧
    (∀ c s t o, Event.loginWithServicePrincipalSecret c s t o ∈ main cfg w ↔
      (c = cfg.clientId ∧ s = cfg.secret ∧
       t = (if isAdfs metadata = true then js "adfs" else cfg.tenantId) ∧
       o = { tokenAudience := metadata.audiences[0]?,
             environmentValidateAuthority := if isAdfs metadata = true then some false else none })) ∧
    (isAdfs metadata = true →
      (adfsBranch (isAdfs metadata)
        { tenantId := cfg.tenantId,
          options := { tokenAudience := metadata.audiences[0]?,
                       environmentValidateAuthority := none },
          map := deriveMap metadata cfg.base_url }).map.validateAuthority
        = some false) := by
  refine ⟨endsWith_iff _ _, adfs_login_call cfg w metadata hfetch hadd, ?_⟩
  intro hA
  rw [hA]
  rfl

/-- C8 at the worked example: loginEndpoint `https://login.example.com/adfs`
and a configured tenant id that is not `adfs`. -/
theorem adfs_rule_witness :
    adfsWorld.environmentAdd (deriveMap adfsMetadata sampleConfig.base_url) = none ∧
    isAdfs adfsMetadata = true ∧
    sampleConfig.tenantId ≠ js "adfs" ∧
    Event.loginWithServicePrincipalSecret (js "client") (js "secret") (js "adfs")
      { tokenAudience := some (js "aud1"), environmentValidateAuthority := some false }
      ∈ main sampleConfig adfsWorld := by
  have h := adfs_rule sampleConfig adfsWorld adfsMetadata rfl rfl
  refine ⟨rfl, by decide, by decide, ?_⟩
  have hA : isAdfs adfsMetadata = true := by decide
  rw [h.2.1, if_pos hA, if_pos hA]
  exact ⟨rfl, rfl, rfl, rfl⟩

/-- Lines 87-98 on metadata with no audience or a loginEndpoint without a
slash: the assignments of `main` do not throw (the resource id and the
management endpoint are `undefined`, the directory endpoint is the empty
string), the map is handed to `Environment.add`, and the login is called
exactly when `Environment.add` returns. -/
theorem derivation_has_no_check_of_its_own (cfg : Config) (w : World) (metadata : Metadata)
    (hfetch : w.fetch = .body metadata) :
    (metadata.audiences = [] →
      (deriveMap metadata cfg.base_url).activeDirectoryResourceId = none ∧
      (deriveMap metadata cfg.base_url).managementEndpointUrl = none) ∧
    (codeUnit '/' ∉ metadata.loginEndpoint →
      (deriveMap metadata cfg.base_url).activeDirectoryEndpointUrl = []) ∧
    Event.environmentAdd (deriveMap metadata cfg.base_url) ∈ main cfg w ∧
    ((∃ c s t o, Event.loginWithServicePrincipalSecret c s t o ∈ main cfg w) ↔
      w.environmentAdd (deriveMap metadata cfg.base_url) = none) := by
  refine ⟨?_, ?_, ?_, ?_⟩
  · intro h
    simp [deriveMap, h]
  · intro h
    have hgo := (lastIndexOf_go_single (codeUnit '/') metadata.loginEndpoint 0 (-1)).2 h
    simp only [deriveMap, activeDirectoryEndpointUrl, lastIndexOf, js_slash, hgo]
    simp [slice]
  · simp [main, onMetadata, hfetch]
  · cases hadd : w.environmentAdd (deriveMap metadata cfg.base_url) with
    | none =>
      simp only [iff_true]
      exact ⟨_, _, _, _, ((adfs_login_call cfg w metadata hfetch hadd) _ _ _ _).2 ⟨rfl, rfl, rfl, rfl⟩⟩
    | some e =>
      simp [main, onMetadata, hfetch, hadd]

/-! ## Start-up checks -/

theorem truthy_eq_false_iff (v : Option JSString) :
    truthy v = false ↔ v = none ∨ v = some [] := by
  cases v with
  | none => simp [truthy]
  | some x => cases x <;> simp [truthy]

theorem validateEnv_eq (env : JSString → Option JSString) :
    _validateEnvironmentVariables env =
      if falsyEnvNames env = [] then .ok ()
      else .error (envErrorText ++ arrayToString (falsyEnvNames env)) := by
  unfold _validateEnvironmentVariables falsyEnvNames requiredEnvNames
  cases h1 : truthy (env (js "AZURE_CLIENT_ID")) <;>
  cases h2 : truthy (env (js "AZURE_TENANT_ID")) <;>
  cases h3 : truthy (env (js "ARM_ENDPOINT")) <;>
  cases h4 : truthy (env (js "AZURE_CLIENT_SECRET")) <;>
  cases h5 : truthy (env (js "AZURE_SUBSCRIPTION_ID")) <;>
  simp [List.filter, h1, h2, h3, h4, h5]

theorem mem_falsyEnvNames (env : JSString → Option JSString) (n : JSString) :
    n ∈ falsyEnvNames env ↔ n ∈ requiredEnvNames ∧ (env n = none ∨ env n = some []) := by
  unfold falsyEnvNames
  rw [List.mem_filter]
  simp [truthy_eq_false_iff]

theorem arrayToString_eq_intercalate (l : List JSString) :
    arrayToString l = (js ",").intercalate l := by
  induction l with
  | nil => rfl
  | cons x xs ih =>
    cases xs with
    | nil => simp [arrayToString, List.intercalate]
    | cons y ys =>
      simp only [arrayToString, ih]
      simp [List.intercalate, List.intersperse]

/-- C3, counterexample: with all five variables set and AZURE_CLIENT_ID set to
the empty string nothing is missing, yet the check throws, and the message
names AZURE_CLIENT_ID, which is set. -/
theorem validateEnvironmentVariables_throws_on_empty_value :
    (∀ n ∈ requiredEnvNames, ∃ v, envEmptyClientId n = some v) ∧
    _validateEnvironmentVariables envEmptyClientId
      = .error (js "please set/export the following environment variables: AZURE_CLIENT_ID") := by
  refine ⟨?_, by rfl⟩
  intro n _
  unfold envEmptyClientId
  by_cases h : n = js "AZURE_CLIENT_ID"
  · exact ⟨[], by simp [h]⟩
  · exact ⟨js "x", by simp [h]⟩

/-- C3, amended: the check throws exactly when at least one of the five
variables is unset or set to the empty string; the message is then the fixed
text followed by exactly those names (each once, in source order, none whose
variable is non-empty) joined by a comma. -/
theorem validateEnvironmentVariables_lists_falsy (env : JSString → Option JSString) :
    ((∃ m, _validateEnvironmentVariables env = .error m) ↔
      ∃ n ∈ requiredEnvNames, env n = none ∨ env n = some []) ∧
    (_validateEnvironmentVariables env =
      if falsyEnvNames env = [] then .ok ()
      else .error (js "please set/export the following environment variables: "
        ++ (js ",").intercalate (falsyEnvNames env))) ∧
    (falsyEnvNames env).Nodup ∧
    (falsyEnvNames env).Sublist requiredEnvNames ∧
    (∀ n, n ∈ falsyEnvNames env ↔ n ∈ requiredEnvNames ∧ (env n = none ∨ env n = some [])) := by
  have heq := validateEnv_eq env
  have hmem := mem_falsyEnvNames env
  refine ⟨?_, ?_, ?_, ?_, hmem⟩
  · rw [heq]
    by_cases h : falsyEnvNames env = []
    · rw [if_pos h]
      constructor
      · rintro ⟨m, hm⟩
        cases hm
      · rintro ⟨n, hn, hv⟩
        have : n ∈ falsyEnvNames env := (hmem n).2 ⟨hn, hv⟩
        rw [h] at this
        simp at this
    · rw [if_neg h]
      constructor
      · intro _
        obtain ⟨n, hn⟩ := List.exists_mem_of_ne_nil _ h
        exact ⟨n, ((hmem n).1 hn).1, ((hmem n).1 hn).2⟩
      · intro _
        exact ⟨_, rfl⟩
  · rw [heq, arrayToString_eq_intercalate]
    rfl
  · exact List.Nodup.filter _ (by decide)
  · exact List.filter_sublist _

theorem validateEnv_ok_of_truthy (env : JSString → Option JSString)
    (henv : ∀ n ∈ requiredEnvNames, truthy (env n) = true) :
    _validateEnvironmentVariables env = .ok () := by
  rw [validateEnv_eq]
  have h : falsyEnvNames env = [] := by
    unfold falsyEnvNames
    rw [List.filter_eq_nil_iff]
    intro n hn
    simp [henv n hn]
  rw [if_pos h]

theorem requestGet_mem_main (cfg : Config) (w : World) :
    (main cfg w).any (fun e => match e with | .requestGet _ => true | _ => false) = true := by
  simp [main]

/-- C4, counterexample: with `node cleanup.js "" acct` both positional
arguments are present, yet the usage error is raised. -/
theorem validateParameters_throws_on_empty_argument :
    [js "node", js "cleanup.js", [], js "acct"][2]? = some [] ∧
    [js "node", js "cleanup.js", [], js "acct"][3]? = some (js "acct") ∧
    _validateParameters [js "node", js "cleanup.js", [], js "acct"] = .error usageErrorText := by
  refine ⟨rfl, rfl, by rfl⟩

/-- C4, amended: when all five required variables are set to non-empty
values and a positional argument is absent or empty, start-up throws the usage
error and performs nothing, so the network call of fetchEndpointMetadata is
never made; when both arguments are present and non-empty,
_validateParameters does not throw and start-up goes on to the fetch. -/
theorem usage_error_before_fetch (env : JSString → Option JSString) (argv : List JSString)
    (w : World) (henv : ∀ n ∈ requiredEnvNames, truthy (env n) = true) :
    ((argv[2]? = none ∨ argv[2]? = some [] ∨ argv[3]? = none ∨ argv[3]? = some []) →
      startup env argv w = { events := [], thrown := some usageErrorText } ∧
      fetchInvoked (startup env argv w) = false) ∧
    ((∃ a b, argv[2]? = some a ∧ a ≠ [] ∧ argv[3]? = some b ∧ b ≠ []) →
      _validateParameters argv = .ok () ∧
      (startup env argv w).thrown = none ∧
      fetchInvoked (startup env argv w) = true) := by
  have hok := validateEnv_ok_of_truthy env henv
  constructor
  · intro h
    have hp : _validateParameters argv = .error usageErrorText := by
      unfold _validateParameters
      have : (!truthy argv[2]? || !truthy argv[3]?) = true := by
        rcases h with h | h | h | h <;> simp [h, truthy]
      rw [if_pos this]
    have hs : startup env argv w = { events := [], thrown := some usageErrorText } := by
      unfold startup
      rw [hok, hp]
    exact ⟨hs, by rw [hs]; rfl⟩
  · rintro ⟨a, b, ha, hane, hb, hbne⟩
    have hp : _validateParameters argv = .ok () := by
      unfold _validateParameters
      cases a with
      | nil => exact absurd rfl hane
      | cons x xs =>
        cases b with
        | nil => exact absurd rfl hbne
        | cons y ys => simp [ha, hb, truthy]
    have hs : startup env argv w = { events := main (loadConfig env argv) w, thrown := none } := by
      unfold startup
      rw [hok, hp]
    refine ⟨hp, by rw [hs], ?_⟩
    rw [hs]
    exact requestGet_mem_main _ _

/-- C4 at `node cleanup.js` and at `node cleanup.js rg acct`, every variable
set: the usage error and no fetch in the first run, the fetch in the second. -/
theorem usage_error_before_fetch_witness :
    (∀ n ∈ requiredEnvNames, truthy (envAllSet n) = true) ∧
    (startup envAllSet [js "node", js "cleanup.js"] adfsWorld
        = { events := [], thrown := some usageErrorText } ∧
      fetchInvoked (startup envAllSet [js "node", js "cleanup.js"] adfsWorld) = false) ∧
    (_validateParameters [js "node", js "cleanup.js", js "rg", js "acct"] = .ok () ∧
      (startup envAllSet [js "node", js "cleanup.js", js "rg", js "acct"] adfsWorld).thrown = none ∧
      fetchInvoked (startup envAllSet [js "node", js "cleanup.js", js "rg", js "acct"] adfsWorld)
        = true) :=
  ⟨fun _ _ => rfl,
   (usage_error_before_fetch envAllSet [js "node", js "cleanup.js"] adfsWorld
      (fun _ _ => rfl)).1 (Or.inl rfl),
   (usage_error_before_fetch envAllSet [js "node", js "cleanup.js", js "rg", js "acct"] adfsWorld
      (fun _ _ => rfl)).2 ⟨js "rg", js "acct", rfl, by decide, rfl, by decide⟩⟩

theorem envError_ne_usageError (l : JSString) : envErrorText ++ l ≠ usageErrorText := by
  intro h
  have h1 : envErrorText = 112 :: envErrorText.tail := by decide
  have h2 : usageErrorText.head? = some 80 := by decide
  rw [h1] at h
  rw [← h] at h2
  simp at h2

/-- C5, counterexample: with no variable set and no positional argument each
check on its own would throw, and start-up reports the environment error only:
the one error thrown is not the usage error. -/
theorem startup_reports_one_error :
    _validateParameters [js "node", js "cleanup.js"] = .error usageErrorText ∧
    startup envNone [js "node", js "cleanup.js"] adfsWorld
      = { events := []
          thrown := some (js "please set/export the following environment variables: AZURE_CLIENT_ID,AZURE_TENANT_ID,ARM_ENDPOINT,AZURE_CLIENT_SECRET,AZURE_SUBSCRIPTION_ID") } ∧
    (startup envNone [js "node", js "cleanup.js"] adfsWorld).thrown ≠ some usageErrorText := by
  refine ⟨by rfl, by rfl, ?_⟩
  intro h
  exact envError_ne_usageError _ (Option.some.inj h)

/-- C5, amended: the two checks run in source order and the first throw ends
start-up.  When at least one required variable is unset or empty, start-up
throws the environment error and nothing else, whatever the arguments: the
usage error is not reported; its message differs from the usage message. -/
theorem env_error_preempts_usage_error (env : JSString → Option JSString)
    (argv : List JSString) (w : World)
    (h : ∃ n ∈ requiredEnvNames, env n = none ∨ env n = some []) :
    startup env argv w
      = { events := []
          thrown := some (envErrorText ++ arrayToString (falsyEnvNames env)) } ∧
    (startup env argv w).thrown ≠ some usageErrorText := by
  obtain ⟨n, hn, hv⟩ := h
  have hne : falsyEnvNames env ≠ [] := by
    intro h0
    have : n ∈ falsyEnvNames env := (mem_falsyEnvNames env n).2 ⟨hn, hv⟩
    rw [h0] at this
    simp at this
  have hs : startup env argv w
      = { events := [], thrown := some (envErrorText ++ arrayToString (falsyEnvNames env)) } := by
    unfold startup
    rw [validateEnv_eq, if_neg hne]
  refine ⟨hs, ?_⟩
  rw [hs]
  intro h1
  exact envError_ne_usageError _ (Option.some.inj h1)

/-- C5 at an environment without AZURE_TENANT_ID and no positional argument. -/
theorem env_error_preempts_usage_error_witness :
    startup (fun n => if n = js "AZURE_TENANT_ID" then none else some (js "x"))
        [js "node", js "cleanup.js"] adfsWorld
      = { events := []
          thrown := some (js "please set/export the following environment variables: AZURE_TENANT_ID") } := by
  have h := (env_error_preempts_usage_error
    (fun n => if n = js "AZURE_TENANT_ID" then none else some (js "x"))
    [js "node", js "cleanup.js"] adfsWorld
    ⟨js "AZURE_TENANT_ID", by decide, Or.inl (by simp)⟩).1
  rw [h]
  rfl

/-! ## Teardown -/

theorem append_ne_of_take (a b x : JSString) (n : Nat) (hn : n ≤ a.length)
    (h : a.take n ≠ b.take n) : a ++ x ≠ b := by
  intro e
  apply h
  rw [← e, List.take_append_of_le_length hn]

/-- In a list cut at an occurrence of `x`, a prefix of the list without `x`
lies before the cut. -/
theorem take_subset_of_split {α : Type} (l pre post : List α) (x : α) (k : Nat)
    (h : l = pre ++ x :: post) (hk : x ∉ l.take k) : ∀ y ∈ l.take k, y ∈ pre := by
  have hle : k ≤ pre.length := by
    by_contra hlt
    apply hk
    rw [h, List.take_append_eq_append_take]
    have : k - pre.length = (k - pre.length - 1) + 1 := by omega
    rw [this, List.take_succ_cons]
    simp
  intro y hy
  rw [h, List.take_append_of_le_length hle] at hy
  exact List.mem_of_mem_take hy

/-- The library model runs the final callback once a task calls its callback:
with a task that does, the terminal step of the source runs exactly once. -/
theorem asyncSeries_runs_final_after_callback (cfg : Config) (err : Option JSError) :
    asyncSeries [fun callback => callback err] (seriesFinal cfg) = seriesFinal cfg err ∧
    exitCount (seriesFinal cfg err) = 1 := by
  constructor
  · cases err <;> rfl
  · cases err <;> simp [seriesFinal, exitCount]

/-- The teardown sequence never calls `process.exit`. -/
theorem exitCount_teardown (cfg : Config) (w : World) : exitCount (teardown cfg w) = 0 := by
  unfold teardown asyncSeries seriesTask deleteStorageAccount storageAccountsDeleteMethod exitCount
  cases hs : w.storageDelete with
  | some e => simp
  | none =>
    unfold deleteResourceGroup resourceGroupsDeleteMethod
    cases hr : w.resourceGroupDelete <;> simp

/-- C1, what the code does: in every run, and so in every run of the teardown
sequence whatever the outcomes of the two deletes, the final callback of
async.series never runs: process.exit is called zero times and neither the
closing banner nor the recovery command is logged. -/
theorem teardown_never_runs_final (cfg : Config) (w : World) :
    exitCount (main cfg w) = 0 ∧
    exitCount (teardown cfg w) = 0 ∧
    Event.consoleLog exitBanner ∉ teardown cfg w ∧
    Event.consoleLog (recoveryCommand cfg) ∉ teardown cfg w := by
  have b1 : js "\nDeleting storage account : " ++ cfg.storageAccountName ≠ exitBanner :=
    append_ne_of_take _ _ _ 2 (by decide) (by decide)
  have b2 : js "Successfully deleted the storage account: " ++ cfg.storageAccountName ≠ exitBanner :=
    append_ne_of_take _ _ _ 1 (by decide) (by decide)
  have b3 : js "\nDeleting the resource group can take few minutes, so please be patient :)."
      ≠ exitBanner := by decide
  have b4 : js "\nDeleting resource group: " ++ cfg.resourceGroupName ≠ exitBanner :=
    append_ne_of_take _ _ _ 2 (by decide) (by decide)
  have b5 : js "Successfully deleted the resourcegroup: " ++ cfg.resourceGroupName ≠ exitBanner :=
    append_ne_of_take _ _ _ 1 (by decide) (by decide)
  have r0 : (recoveryCommand cfg).take 1 = [80] := by
    unfold recoveryCommand
    rw [List.append_assoc, List.append_assoc, List.take_append_of_le_length (by decide)]
    decide
  have rne : ∀ (a x : JSString), 1 ≤ a.length → a.take 1 ≠ [80] → a ++ x ≠ recoveryCommand cfg := by
    intro a x hlen hne e
    apply hne
    rw [← r0, ← e, List.take_append_of_le_length hlen]
  have c1 := rne (js "\nDeleting storage account : ") cfg.storageAccountName (by decide) (by decide)
  have c2 := rne (js "Successfully deleted the storage account: ") cfg.storageAccountName
    (by decide) (by decide)
  have c3 : js "\nDeleting the resource group can take few minutes, so please be patient :)."
      ≠ recoveryCommand cfg := by
    have := rne (js "\nDeleting the resource group can take few minutes, so please be patient :).")
      [] (by decide) (by decide)
    simpa using this
  have c4 := rne (js "\nDeleting resource group: ") cfg.resourceGroupName (by decide) (by decide)
  have c5 := rne (js "Successfully deleted the resourcegroup: ") cfg.resourceGroupName
    (by decide) (by decide)
  have ht := exitCount_teardown cfg w
  refine ⟨?_, ht, ?_⟩
  · unfold exitCount at ht ⊢
    unfold main
    cases hf : w.fetch with
    | transportError e => simp
    | invalidJson e => simp
    | body metadata =>
      unfold onMetadata
      cases ha : w.environmentAdd (deriveMap metadata cfg.base_url) with
      | some e => simp [ha]
      | none =>
        cases hl : w.login with
        | some e => simp [ha, hl]
        | none => simp [ha, hl, ht]
  · unfold teardown asyncSeries seriesTask deleteStorageAccount storageAccountsDeleteMethod
    cases hs : w.storageDelete with
    | some e => simp [b1.symm, c1.symm]
    | none =>
      unfold deleteResourceGroup resourceGroupsDeleteMethod
      cases hr : w.resourceGroupDelete <;>
        simp [b1.symm, b2.symm, b3.symm, b4.symm, b5.symm, c1.symm, c2.symm, c3.symm, c4.symm,
          c5.symm]

/-- C2: in every run of the teardown sequence, if the storage-account delete
reports an error the resource-group delete is never called; wherever the
resource-group delete is called (or deleteResourceGroup logs its first line),
the storage-account delete has reported success earlier in the run; and when
the storage-account delete reports success the resource-group delete is
called. -/
theorem resourceGroup_delete_only_after_storage_success (cfg : Config) (w : World) :
    (∀ e, w.storageDelete = some e →
      ∀ ev ∈ teardown cfg w, ev ≠ Event.resourceGroupsDelete cfg.resourceGroupName ∧
        ev ≠ Event.consoleLog (js "\nDeleting resource group: " ++ cfg.resourceGroupName) ∧
        ∀ rg, ev ≠ Event.resourceGroupsDelete rg) ∧
    (∀ pre post rg, teardown cfg w = pre ++ Event.resourceGroupsDelete rg :: post →
      w.storageDelete = none ∧ Event.storageAccountsDeleteDone none ∈ pre) ∧
    (∀ pre post, teardown cfg w
        = pre ++ Event.consoleLog (js "\nDeleting resource group: " ++ cfg.resourceGroupName) :: post →
      w.storageDelete = none ∧ Event.storageAccountsDeleteDone none ∈ pre) ∧
    (w.storageDelete = none → Event.resourceGroupsDelete cfg.resourceGroupName ∈ teardown cfg w) := by
  have d1 : js "\nDeleting storage account : " ++ cfg.storageAccountName
      ≠ js "\nDeleting resource group: " ++ cfg.resourceGroupName := by
    intro e
    have h := congrArg (List.take 11) e
    rw [List.take_append_of_le_length (by decide), List.take_append_of_le_length (by decide)] at h
    revert h
    decide
  have hform : teardown cfg w =
      Event.consoleLog (js "\nDeleting storage account : " ++ cfg.storageAccountName) ::
      Event.storageAccountsDelete cfg.resourceGroupName cfg.storageAccountName ::
      Event.storageAccountsDeleteDone w.storageDelete ::
      (teardown cfg w).drop 3 := by
    unfold teardown asyncSeries seriesTask deleteStorageAccount storageAccountsDeleteMethod
    rfl
  refine ⟨?_, ?_, ?_, ?_⟩
  · intro e he ev hev
    unfold teardown asyncSeries seriesTask deleteStorageAccount storageAccountsDeleteMethod at hev
    simp only [he] at hev
    simp only [List.mem_cons, List.mem_singleton, List.not_mem_nil, or_false] at hev
    rcases hev with h | h | h | h <;> subst h <;> simp [d1]
  · intro pre post rg hsplit
    cases hs : w.storageDelete with
    | some e =>
      exfalso
      have hmem : Event.resourceGroupsDelete rg ∈ teardown cfg w := by
        rw [hsplit]; simp
      unfold teardown asyncSeries seriesTask deleteStorageAccount storageAccountsDeleteMethod at hmem
      simp [hs] at hmem
    | none =>
      refine ⟨rfl, ?_⟩
      apply take_subset_of_split (teardown cfg w) pre post (Event.resourceGroupsDelete rg) 3 hsplit
      · rw [hform]; simp
      · rw [hform, hs]; simp
  · intro pre post hsplit
    cases hs : w.storageDelete with
    | some e =>
      exfalso
      have hmem : Event.consoleLog (js "\nDeleting resource group: " ++ cfg.resourceGroupName)
          ∈ teardown cfg w := by
        rw [hsplit]; simp
      unfold teardown asyncSeries seriesTask deleteStorageAccount storageAccountsDeleteMethod at hmem
      simp [hs] at hmem
      exact d1 hmem.symm
    | none =>
      refine ⟨rfl, ?_⟩
      apply take_subset_of_split (teardown cfg w) pre post _ 3 hsplit
      · rw [hform]
        simp only [List.take_succ_cons, List.take_zero, List.mem_cons, List.not_mem_nil, or_false,
          not_or]
        exact ⟨fun h => d1 (Event.consoleLog.inj h).symm, by simp, by simp⟩
      · rw [hform, hs]; simp
  · intro hs
    unfold teardown asyncSeries seriesTask deleteStorageAccount storageAccountsDeleteMethod
      deleteResourceGroup resourceGroupsDeleteMethod
    simp [hs]

end Cleanup
